import Mathlib

/-
Verification of the movement and connectivity engine of the isometric
perspective-illusion puzzle game (src/store.ts, src/types.ts).

The embedding is shallow and exact: positions are rational 3-vectors, the
`|dist - 1.0| < 0.15` physical test of `getNeighbors` is expressed on the
squared distance (`0.85 < d < 1.15  iff  0.7225 < d^2 < 1.3225` for d >= 0,
see `physAdjacent_iff_sqrt`), rotator values are integers (quarter turns,
`interactGroup` rounds them), and the runtime's fallible `Map.get(...)!`
lookups are modelled with `Option`, a `none` standing for the TypeError the
JS code throws when the asserted lookup is absent.  The breadth-first
search of `movePlayer` carries a fuel parameter: the JS `while` loop
terminates because `visited` bounds the queue, and every theorem below is
either independent of the fuel or quantified over it.
-/

/-- Block kinds of `BlockType` in src/types.ts. -/
inductive BlockType where
  | CUBE | STAIR | ARCH | ROUNDED | PORTAL | WATER | PILLAR
  | ROTATOR | DOME | SPIRE | LATTICE | DECOR | FLOOR | WALL
deriving DecidableEq

/-- Group kinds of `GroupType` in src/types.ts. -/
inductive GroupType where
  | STATIC | ROTATOR | SLIDER
deriving DecidableEq

/-- Slider axes of `Axis` in src/types.ts. -/
inductive Axis where
  | X | Y | Z
deriving DecidableEq

/-- Game status of `GameStatus` in src/types.ts. -/
inductive GameStatus where
  | IDLE | PLAYING | COMPLETED
deriving DecidableEq

/-- Exact 3-vector standing for the runtime's `Vector3`. -/
structure Vec3 where
  x : ℚ
  y : ℚ
  z : ℚ
deriving DecidableEq

/-- Componentwise vector addition (`Vector3.add`). -/
def Vec3.add (a b : Vec3) : Vec3 := ⟨a.x + b.x, a.y + b.y, a.z + b.z⟩

/-- Componentwise vector subtraction (`Vector3.sub`). -/
def Vec3.sub (a b : Vec3) : Vec3 := ⟨a.x - b.x, a.y - b.y, a.z - b.z⟩

/-- Scalar multiplication (`Vector3.multiplyScalar`). -/
def Vec3.smul (a : Vec3) (c : ℚ) : Vec3 := ⟨a.x * c, a.y * c, a.z * c⟩

/-- Squared Euclidean distance; `Vector3.distanceTo` is its square root. -/
def distSq (a b : Vec3) : ℚ :=
  (a.x - b.x) ^ 2 + (a.y - b.y) ^ 2 + (a.z - b.z) ^ 2

/-- Squared horizontal (planar, ignoring y) distance, used to state the
spec sentence of claim C1; the source never computes this quantity. -/
def horizDistSq (a b : Vec3) : ℚ :=
  (a.x - b.x) ^ 2 + (a.z - b.z) ^ 2

/-- The node record `GameNode` of src/types.ts (lines 33-42).  There is no
optical-bridge marker field: `id`, `localPos`, `groupId`, `type`,
`isWalkable`, optional `isGoal`, `portalTargetId` and visual `rotation`
are the only fields. -/
structure GameNode where
  id : ℕ
  localPos : Vec3
  groupId : String
  type : BlockType
  isWalkable : Bool
  isGoal : Bool := false
  portalTargetId : Option ℕ := none
  rotation : Option Vec3 := none
deriving DecidableEq

/-- The `LevelGroup` record of src/types.ts. -/
structure LevelGroup where
  id : String
  type : GroupType
  initialPos : Vec3
  pivot : Option Vec3 := none
  axis : Option Axis := none
  limit : Option (ℚ × ℚ) := none
deriving DecidableEq

/-- The `LevelData` record of src/types.ts. -/
structure LevelData where
  nodes : List GameNode
  groups : List LevelGroup
  startNode : ℕ

/-- The live per-group transform state `GroupState` of src/store.ts
(lines 726-734); `regenerateWorld` copies the level group's fields and
starts `rotationValue`/`offsetValue` at 0.  `rotationValue` is an integer:
it only ever changes through `Math.round` in `interactGroup`. -/
structure GroupState where
  id : String
  type : GroupType
  initialPos : Vec3
  pivot : Option Vec3 := none
  axis : Option Axis := none
  rotationValue : ℤ
  offsetValue : ℚ
deriving DecidableEq

/-- Cosine of `r` quarter turns, exact (`cos (r * 90°)`). -/
def cosQ (r : ℤ) : ℤ :=
  if r % 4 = 0 then 1 else if r % 4 = 2 then -1 else 0

/-- Sine of `r` quarter turns, exact (`sin (r * 90°)`). -/
def sinQ (r : ℤ) : ℤ :=
  if r % 4 = 1 then 1 else if r % 4 = 3 then -1 else 0

/-- Rotation about the vertical axis `(0,1,0)` by `r` quarter turns:
the exact value of `Vector3.applyAxisAngle(new Vector3(0,1,0), r * PI/2)`
(right-handed, so `(1,0,0)` goes to `(0,0,-1)` after one turn). -/
def rotY (r : ℤ) (v : Vec3) : Vec3 :=
  ⟨v.x * (cosQ r : ℚ) + v.z * (sinQ r : ℚ), v.y,
   -(v.x * (sinQ r : ℚ)) + v.z * (cosQ r : ℚ)⟩

/-- Unit vector of a slider axis (store.ts line 965). -/
def axisVec (a : Axis) : Vec3 :=
  match a with
  | .X => ⟨1, 0, 0⟩
  | .Y => ⟨0, 1, 0⟩
  | .Z => ⟨0, 0, 1⟩

/-- The world-position resolver `getWorldPosition` of `movePlayer`
(store.ts lines 953-970): look the node's group state up; rotators rotate
the local position about the pivot by `rotationValue` quarter turns,
sliders translate along their axis by `offsetValue`, then the group's
initial offset is added; a node with no group state keeps its local
position. -/
def getWorldPosition (groupStates : String → Option GroupState) (node : GameNode) : Vec3 :=
  match groupStates node.groupId with
  | none => node.localPos
  | some state =>
    let l1 :=
      match state.type, state.pivot with
      | GroupType.ROTATOR, some pivot => (rotY state.rotationValue (node.localPos.sub pivot)).add pivot
      | _, _ => node.localPos
    let l2 :=
      match state.type, state.axis with
      | GroupType.SLIDER, some a => l1.add ((axisVec a).smul state.offsetValue)
      | _, _ => l1
    l2.add state.initialPos

/-- The world-position table of store.ts lines 972-973: `Map.set` over the
node list in order, so a later node with a duplicate id overwrites an
earlier one (the recursion prefers the tail). -/
def worldPositions (groupStates : String → Option GroupState) :
    List GameNode → ℕ → Option Vec3
  | [] => fun _ => none
  | n :: rest => fun i =>
    match worldPositions groupStates rest i with
    | some v => some v
    | none => if i = n.id then some (getWorldPosition groupStates n) else none

/-- The physical adjacency test of store.ts lines 984-985:
`Math.abs(dist - 1.0) < 0.15` on the Euclidean distance, restated on the
squared distance (`0.7225 < distSq < 1.3225`); `physAdjacent_iff_sqrt`
below proves the restatement exact. -/
def physAdjacent (a b : Vec3) : Bool :=
  decide ((289 / 400 : ℚ) < distSq a b) && decide (distSq a b < (529 / 400 : ℚ))

/-- The rounded view index of store.ts lines 991-992:
`(((rawIndex % 4) + 4) % 4)` with the JS truncating `%`. -/
def viewIndex (globalRotationIndex : ℤ) : ℤ :=
  (Int.tmod globalRotationIndex 4 + 4).tmod 4

/-- The "Visual Check" of store.ts lines 990-1015: under views 0 and 2 the
pair is connected when the x- and y-offsets form an axis-aligned unit step
within tolerance `THRESHOLD = 0.4`; under views 1 and 3 the z- and
y-offsets are used instead.  The coordinate dropped by the active view is
never inspected. -/
def visuallyConnected (globalRotationIndex : ℤ) (currentPos targetPos : Vec3) : Bool :=
  let vi := viewIndex globalRotationIndex
  let dx := |currentPos.x - targetPos.x|
  let dy := |currentPos.y - targetPos.y|
  let dz := |currentPos.z - targetPos.z|
  let T : ℚ := 2 / 5
  if vi = 0 then
    (decide (dx < T) && decide (|dy - 1| < T)) || (decide (dy < T) && decide (|dx - 1| < T))
  else if vi = 1 then
    (decide (dz < T) && decide (|dy - 1| < T)) || (decide (dy < T) && decide (|dz - 1| < T))
  else if vi = 2 then
    (decide (dx < T) && decide (|dy - 1| < T)) || (decide (dy < T) && decide (|dx - 1| < T))
  else if vi = 3 then
    (decide (dz < T) && decide (|dy - 1| < T)) || (decide (dy < T) && decide (|dz - 1| < T))
  else false

/-- Body of the `getNeighbors` scan (store.ts lines 979-1018): skip the
current node and every non-walkable candidate; otherwise dereference both
world positions (the JS `!` assertion: a missing entry is the `none`
TypeError) and accept the candidate on the physical test or, failing
that, on the visual check. -/
def getNeighborsGo (wp : ℕ → Option Vec3) (gri : ℤ) (currentId : ℕ)
    (currentPos? : Option Vec3) : List GameNode → List ℕ → Option (List ℕ)
  | [], acc => some acc
  | potential :: rest, acc =>
    if potential.id = currentId then
      getNeighborsGo wp gri currentId currentPos? rest acc
    else if potential.isWalkable = false then
      getNeighborsGo wp gri currentId currentPos? rest acc
    else
      match currentPos?, wp potential.id with
      | some currentPos, some targetPos =>
        if physAdjacent currentPos targetPos then
          getNeighborsGo wp gri currentId currentPos? rest (acc ++ [potential.id])
        else if visuallyConnected gri currentPos targetPos then
          getNeighborsGo wp gri currentId currentPos? rest (acc ++ [potential.id])
        else
          getNeighborsGo wp gri currentId currentPos? rest acc
      | _, _ => none

/-- The `getNeighbors` closure of `movePlayer` (store.ts lines 975-1020). -/
def getNeighbors (nodes : List GameNode) (wp : ℕ → Option Vec3) (gri : ℤ)
    (currentId : ℕ) : Option (List ℕ) :=
  getNeighborsGo wp gri currentId (wp currentId) nodes []

/-- Result of one breadth-first query in `movePlayer`:
`found p` when the loop breaks with `path = p`, `notFound` when the queue
empties (or the fuel artifact runs out), `crash` for the TypeError of a
failed asserted lookup inside `getNeighbors`. -/
inductive SearchResult where
  | found (path : List ℕ)
  | notFound
  | crash
deriving DecidableEq

/-- The neighbor loop of store.ts lines 1032-1037: for each neighbor in
order, skip it when already visited, otherwise mark it visited and push
the extended path at the back of the queue. -/
def enqueue (currentPath : List ℕ) :
    List ℕ → List (List ℕ) → List ℕ → List (List ℕ) × List ℕ
  | [], queue, visited => (queue, visited)
  | w :: ws, queue, visited =>
    if w ∈ visited then enqueue currentPath ws queue visited
    else enqueue currentPath ws (queue ++ [currentPath ++ [w]]) (w :: visited)

/-- The breadth-first `while` loop of store.ts lines 1027-1038: shift the
front path, break with it when its last node is the target, otherwise
enumerate neighbors (a failed lookup is the crash) and enqueue the unseen
ones.  The fuel only stands in for the loop's termination; exhausting it
returns `notFound` and every theorem is stated so this cannot matter. -/
def bfsLoop (E : ℕ → Option (List ℕ)) (targetNodeId : ℕ) :
    ℕ → List (List ℕ) → List ℕ → SearchResult
  | _, [], _ => SearchResult.notFound
  | 0, _ :: _, _ => SearchResult.notFound
  | fuel + 1, currentPath :: rest, visited =>
    if currentPath.getLastD 0 = targetNodeId then SearchResult.found currentPath
    else
      match E (currentPath.getLastD 0) with
      | none => SearchResult.crash
      | some ns => bfsLoop E targetNodeId fuel
          (enqueue currentPath ns rest visited).1 (enqueue currentPath ns rest visited).2

/-- The whole path query of store.ts lines 1022-1038: queue seeded with
`[[playerNodeId]]`, visited seeded with the start id. -/
def findPath (E : ℕ → Option (List ℕ)) (startId targetNodeId fuel : ℕ) : SearchResult :=
  bfsLoop E targetNodeId fuel [[startId]] [startId]

/-- Observable outcome of `movePlayer`: the early return (wrong status or
start equals target) is `noop`; otherwise the query either crashes, finds
no path (`if (path)` fails, nothing happens), or schedules the found
path. -/
inductive MoveResult where
  | noop
  | crash
  | noPath
  | moved (path : List ℕ)
deriving DecidableEq

/-- The `movePlayer` action of store.ts lines 949-1050, as a function of
the state snapshot it reads (`playerNodeId`, `level`, `groupStates`,
`globalRotationIndex`, `status`) and the requested target id. -/
def movePlayer (level : LevelData) (groupStates : String → Option GroupState)
    (globalRotationIndex : ℤ) (status : GameStatus)
    (playerNodeId targetNodeId fuel : ℕ) : MoveResult :=
  if status ≠ GameStatus.PLAYING ∨ playerNodeId = targetNodeId then MoveResult.noop
  else
    let wp := worldPositions groupStates level.nodes
    match findPath (getNeighbors level.nodes wp globalRotationIndex)
        playerNodeId targetNodeId fuel with
    | SearchResult.found p => MoveResult.moved p
    | SearchResult.notFound => MoveResult.noPath
    | SearchResult.crash => MoveResult.crash

/-- The `interactGroup` action of store.ts lines 919-947: rotators round
the incremented rotation; sliders look the `[min, max]` limit up in the
level data, defaulting to `[0, 100]` when the group or its limit is
missing (`levelGroup?.limit || [0, 100]`), and clamp the incremented
offset into the ordered bound. -/
def interactGroup (level : LevelData) (groupStates : String → Option GroupState)
    (status : GameStatus) (groupId : String) (delta : ℚ) :
    String → Option GroupState :=
  if status ≠ GameStatus.PLAYING then groupStates
  else
    match groupStates groupId with
    | none => groupStates
    | some group =>
      match group.type with
      | GroupType.ROTATOR =>
        fun g => if g = groupId then
          some { group with rotationValue := round ((group.rotationValue : ℚ) + delta) }
        else groupStates g
      | GroupType.SLIDER =>
        let limit := ((level.groups.find? (fun g => g.id = groupId)).bind
          (fun g => g.limit)).getD (0, 100)
        let mn := min limit.1 limit.2
        let mx := max limit.1 limit.2
        fun g => if g = groupId then
          some { group with offsetValue := max mn (min mx (group.offsetValue + delta)) }
        else groupStates g
      | GroupType.STATIC => groupStates

/-- Edge relation induced by a neighbor function: `v` is listed among the
neighbors of `u` (a crashed enumeration has no edges). -/
def edgeOf (E : ℕ → Option (List ℕ)) (u v : ℕ) : Prop := v ∈ (E u).getD []

/-- A path of the spec: nonempty, starts at `s`, ends at `t`, every
consecutive pair an edge. -/
def isPath (E : ℕ → Option (List ℕ)) (s t : ℕ) (p : List ℕ) : Prop :=
  p.head? = some s ∧ p.getLast? = some t ∧ List.Chain' (edgeOf E) p

/-- `n` is the least number of edges of any path from `s` to `v`. -/
def shortestTo (E : ℕ → Option (List ℕ)) (s v n : ℕ) : Prop :=
  (∃ p, isPath E s v p ∧ p.length = n + 1) ∧
    ∀ p, isPath E s v p → n + 1 ≤ p.length

/-- Every neighbor of `v` has already been visited. -/
def bfsExpanded (E : ℕ → Option (List ℕ)) (visited : List ℕ) (v : ℕ) : Prop :=
  ∀ w, edgeOf E v w → w ∈ visited

/-- Ids of the walkable nodes of a level (the only candidates
`getNeighbors` ever accepts). -/
def walkableIds (nodes : List GameNode) : List ℕ :=
  (nodes.filter (fun n => n.isWalkable)).map (fun n => n.id)

/-- Invariant tying a breadth-first state to the graph: queue paths are
valid walks of nondecreasing length spanning at most two levels, each is a
shortest path to its endpoint, endpoints are visited, every visited node
is still queued or fully expanded, and every node strictly closer than the
front of the queue is visited and expanded. -/
structure BfsInv (E : ℕ → Option (List ℕ)) (s : ℕ)
    (queue : List (List ℕ)) (visited : List ℕ) : Prop where
  walks : ∀ r ∈ queue, r.head? = some s ∧ List.Chain' (edgeOf E) r ∧ r ≠ []
  sorted : List.Pairwise (fun r q => List.length r ≤ List.length q) queue
  window : ∀ h r, queue.head? = some h → r ∈ queue → r.length ≤ h.length + 1
  short : ∀ r ∈ queue, ∀ e, r.getLast? = some e → shortestTo E s e (r.length - 1)
  ends : ∀ r ∈ queue, ∀ e, r.getLast? = some e → e ∈ visited
  closure : ∀ v ∈ visited,
    (∃ r ∈ queue, r.getLast? = some v) ∨ bfsExpanded E visited v
  frontier : ∀ h, queue.head? = some h → ∀ v n, shortestTo E s v n →
    n + 1 < h.length → v ∈ visited ∧ bfsExpanded E visited v
  startMem : s ∈ visited

/-- Fixture: walkable unit cube at the origin, static context. -/
def nodeA : GameNode :=
  { id := 0, localPos := ⟨0, 0, 0⟩, groupId := "g", type := BlockType.CUBE, isWalkable := true }

/-- Fixture: walkable unit cube at `(1,0,0)`. -/
def nodeB : GameNode :=
  { id := 1, localPos := ⟨1, 0, 0⟩, groupId := "g", type := BlockType.CUBE, isWalkable := true }

/-- Fixture: non-walkable solid at `(0.5,0,0)`, the midpoint of the
`nodeA`-`nodeB` step. -/
def solidMid : GameNode :=
  { id := 2, localPos := ⟨1/2, 0, 0⟩, groupId := "g", type := BlockType.DECOR, isWalkable := false }

/-- Fixture: walkable cube at `(0,1,3)`, one screen step above `nodeA`
under view 0 but three units away in depth. -/
def nodeLift : GameNode :=
  { id := 1, localPos := ⟨0, 1, 3⟩, groupId := "g", type := BlockType.CUBE, isWalkable := true }

/-- Fixture: `nodeA` with different cosmetic fields (block kind and goal
flag) but the same id and walkability. -/
def nodeA2 : GameNode :=
  { id := 0, localPos := ⟨0, 0, 0⟩, groupId := "h", type := BlockType.STAIR,
    isWalkable := true, isGoal := true }

/-- Fixture: `nodeLift` with different cosmetic fields. -/
def nodeLift2 : GameNode :=
  { id := 1, localPos := ⟨0, 1, 3⟩, groupId := "h", type := BlockType.DOME,
    isWalkable := true, portalTargetId := some 7 }

/-- Fixture: world positions of `[nodeA, nodeB, solidMid]` with no group
state (each node keeps its local position). -/
def wpABM : ℕ → Option Vec3 := worldPositions (fun _ => none) [nodeA, nodeB, solidMid]

/-- Fixture: world positions of `[nodeA, nodeB]` with no group state. -/
def wpAB : ℕ → Option Vec3 := worldPositions (fun _ => none) [nodeA, nodeB]

/-- Fixture: world positions of `[nodeA, nodeLift]` with no group state. -/
def wpLift : ℕ → Option Vec3 := worldPositions (fun _ => none) [nodeA, nodeLift]

/-- Fixture: a slider level group with no `[min, max]` limit configured. -/
def sliderGroupNoLimit : LevelGroup :=
  { id := "s", type := GroupType.SLIDER, initialPos := ⟨0, 0, 0⟩, axis := some Axis.X }

/-- Fixture: a level holding only the limitless slider group. -/
def sliderLevel : LevelData :=
  { nodes := [], groups := [sliderGroupNoLimit], startNode := 0 }

/-- Fixture: live state of the limitless slider, offset at its default 0. -/
def sliderState : GroupState :=
  { id := "s", type := GroupType.SLIDER, initialPos := ⟨0, 0, 0⟩, axis := some Axis.X,
    rotationValue := 0, offsetValue := 0 }

/-- Fixture: group-state table holding only the slider. -/
def sliderStates : String → Option GroupState :=
  fun g => if g = "s" then some sliderState else none

/-- Fixture: a level whose only node is `nodeB` (id 1); id 99 is absent. -/
def levelOnlyB : LevelData := { nodes := [nodeB], groups := [], startNode := 1 }

/-- Fixture: the two-node level `[nodeA, nodeB]`. -/
def levelAB : LevelData := { nodes := [nodeA, nodeB], groups := [], startNode := 0 }

/-- A rotator state bumped by a full revolution (four quarter turns). -/
def bumpRot (st : GroupState) : GroupState :=
  { st with rotationValue := st.rotationValue + 4 }

/-- The squared-distance band of `physAdjacent` is exactly the source's
`Math.abs(dist - 1.0) < 0.15` on the real square-root distance. -/
theorem physAdjacent_iff_sqrt (a b : Vec3) :
    physAdjacent a b = true ↔ |Real.sqrt ((distSq a b : ℚ) : ℝ) - 1| < 3 / 20 := by
  have hd : (0 : ℝ) ≤ ((distSq a b : ℚ) : ℝ) := by
    have h0 : (0 : ℚ) ≤ distSq a b := by unfold distSq; positivity
    exact_mod_cast h0
  have e1 : ((17 : ℝ) / 20) ^ 2 = ((289 / 400 : ℚ) : ℝ) := by norm_num
  have e2 : ((23 : ℝ) / 20) ^ 2 = ((529 / 400 : ℚ) : ℝ) := by norm_num
  have hgt : (17 / 20 : ℝ) < Real.sqrt ((distSq a b : ℚ) : ℝ) ↔
      (289 / 400 : ℚ) < distSq a b := by
    rw [Real.lt_sqrt (by norm_num), e1, Rat.cast_lt]
  have hlt : Real.sqrt ((distSq a b : ℚ) : ℝ) < 23 / 20 ↔
      distSq a b < (529 / 400 : ℚ) := by
    rw [Real.sqrt_lt' (by norm_num), e2, Rat.cast_lt]
  rw [abs_sub_lt_iff]
  simp only [physAdjacent, Bool.and_eq_true, decide_eq_true_eq]
  constructor
  · rintro ⟨h1, h2⟩
    have g1 := hlt.mpr h2
    have g2 := hgt.mpr h1
    exact ⟨by linarith, by linarith⟩
  · rintro ⟨h1, h2⟩
    exact ⟨hgt.mp (by linarith), hlt.mp (by linarith)⟩

/-- Claim C1 is false on the code: the positions `(0,0,0)` and `(0,1,0)`
have horizontal (planar) distance 0, far outside the 0.85-1.15 band, yet
the physical test of store.ts line 985 reports them adjacent, because it
measures the full 3-D distance (here exactly 1). -/
theorem C1_counterexample :
    horizDistSq (⟨0, 0, 0⟩ : Vec3) ⟨0, 1, 0⟩ < 289 / 400 ∧
      physAdjacent (⟨0, 0, 0⟩ : Vec3) ⟨0, 1, 0⟩ = true := by
  constructor
  · norm_num [horizDistSq]
  · norm_num [physAdjacent, distSq]

/-- Claim C1 amended: the tolerance band around 1.0 is applied to the full
3-D Euclidean distance, not the horizontal one; every pair whose full
squared distance lies outside `(0.85^2, 1.15^2)` is reported not
physically adjacent, however the distance splits into horizontal and
vertical parts. -/
theorem C1_band_on_full_distance (a b : Vec3)
    (h : distSq a b ≤ 289 / 400 ∨ 529 / 400 ≤ distSq a b) :
    physAdjacent a b = false := by
  rcases h with h | h <;>
    simp only [physAdjacent, Bool.and_eq_false_iff, decide_eq_false_iff_not, not_lt]
  · exact Or.inl h
  · exact Or.inr h

/-- Witness for `C1_band_on_full_distance` at `(0,0,0)` and `(2,0,0)`
(squared distance 4, outside the band). -/
theorem C1_band_on_full_distance_witness :
    physAdjacent (⟨0, 0, 0⟩ : Vec3) ⟨2, 0, 0⟩ = false :=
  C1_band_on_full_distance ⟨0, 0, 0⟩ ⟨2, 0, 0⟩ (Or.inr (by norm_num [distSq]))

/-- Claim C3 is false on the code: `GameNode` (src/types.ts lines 33-42)
has no optical-bridge marker field at all, and `getNeighbors` accepts the
purely optical connection from `nodeA` to `nodeLift` (screen-aligned under
view 0, depth 3 apart, not physically adjacent) although neither node
carries any marker. -/
theorem C3_counterexample :
    getNeighbors [nodeA, nodeLift] wpLift 0 0 = some [1] ∧
      physAdjacent (⟨0, 0, 0⟩ : Vec3) ⟨0, 1, 3⟩ = false := by
  constructor
  · norm_num [getNeighbors, getNeighborsGo, wpLift, worldPositions, getWorldPosition,
      nodeA, nodeLift, physAdjacent, distSq, visuallyConnected, viewIndex, Int.tmod]
  · norm_num [physAdjacent, distSq]

/-- Claim C3 amended: no marker flag exists or is consulted; the neighbor
classification depends on the node list only through each node's id and
walkability flag (besides the separately supplied position table), so any
two levels agreeing on those are classified identically. -/
theorem C3_no_marker_consulted (nodes nodes2 : List GameNode) (wp : ℕ → Option Vec3)
    (gri : ℤ) (c : ℕ)
    (h : nodes.map (fun n => (n.id, n.isWalkable)) =
      nodes2.map (fun n => (n.id, n.isWalkable))) :
    getNeighbors nodes wp gri c = getNeighbors nodes2 wp gri c := by
  unfold getNeighbors
  generalize wp c = cp
  generalize ([] : List ℕ) = acc
  induction nodes generalizing nodes2 acc with
  | nil =>
    cases nodes2 with
    | nil => rfl
    | cons m ms => simp at h
  | cons n ns ih =>
    cases nodes2 with
    | nil => simp at h
    | cons m ms =>
      simp only [List.map_cons, List.cons.injEq, Prod.mk.injEq] at h
      obtain ⟨⟨hid, hwalk⟩, hrest⟩ := h
      unfold getNeighborsGo
      rw [hid, hwalk]
      by_cases h1 : m.id = c
      · simp only [h1, if_true]
        exact ih ms hrest acc
      · simp only [h1, if_false]
        by_cases h2 : m.isWalkable = false
        · simp only [h2, if_true]
          exact ih ms hrest acc
        · simp only [h2, if_false]
          cases cp with
          | none => rfl
          | some cpos =>
            cases wp m.id with
            | none => rfl
            | some tpos =>
              simp only []
              by_cases h3 : physAdjacent cpos tpos = true
              · simp only [h3, if_true]
                exact ih ms hrest (acc ++ [m.id])
              · simp only [h3, if_false]
                by_cases h4 : visuallyConnected gri cpos tpos = true
                · simp only [h4, if_true]
                  exact ih ms hrest (acc ++ [m.id])
                · simp only [h4, if_false]
                  exact ih ms hrest acc

/-- Witness for `C3_no_marker_consulted`: changing block kinds, goal
flags, group ids and portal targets leaves the classification unchanged. -/
theorem C3_no_marker_consulted_witness :
    getNeighbors [nodeA, nodeLift] wpLift 0 0 = getNeighbors [nodeA2, nodeLift2] wpLift 0 0 :=
  C3_no_marker_consulted [nodeA, nodeLift] [nodeA2, nodeLift2] wpLift 0 0 rfl

/-- Claim C4 is false on the code: under view 0 the pair `(0,0,0)` and
`(0,1,3/5)` is optically connected although its separation along the
dropped depth axis (z) is only 3/5, far below 2.0 (and the pair is not
physically adjacent, so the connection is genuinely the optical rule). -/
theorem C4_counterexample :
    visuallyConnected 0 (⟨0, 0, 0⟩ : Vec3) ⟨0, 1, 3/5⟩ = true ∧
      physAdjacent (⟨0, 0, 0⟩ : Vec3) ⟨0, 1, 3/5⟩ = false ∧
      |(0 : ℚ) - 3/5| < 2 := by
  refine ⟨?_, ?_, by rw [abs_lt]; constructor <;> norm_num⟩
  · norm_num [visuallyConnected, viewIndex, Int.tmod]
  · norm_num [physAdjacent, distSq]

/-- Claim C4 amended: the optical classifier imposes no minimum depth
separation at all; it never inspects the coordinate dropped by the active
view (z under views 0 and 2, x under views 1 and 3), so replacing the
depth coordinates of both positions arbitrarily leaves the verdict
unchanged. -/
theorem C4_visual_ignores_depth (gri : ℤ) (cp tp : Vec3) (a b c d : ℚ) :
    ((viewIndex gri = 0 ∨ viewIndex gri = 2) →
      visuallyConnected gri ⟨cp.x, cp.y, a⟩ ⟨tp.x, tp.y, b⟩ =
        visuallyConnected gri cp tp) ∧
    ((viewIndex gri = 1 ∨ viewIndex gri = 3) →
      visuallyConnected gri ⟨c, cp.y, cp.z⟩ ⟨d, tp.y, tp.z⟩ =
        visuallyConnected gri cp tp) := by
  constructor
  · rintro (h | h) <;> simp [visuallyConnected, h]
  · rintro (h | h) <;> simp [visuallyConnected, h]

/-- Witness for `C4_visual_ignores_depth`: moving the depth coordinates
from 3 and 9 to 5 and 7 under view 0 changes nothing. -/
theorem C4_visual_ignores_depth_witness :
    visuallyConnected 0 (⟨1, 2, 5⟩ : Vec3) ⟨1, 3, 7⟩ =
      visuallyConnected 0 (⟨1, 2, 3⟩ : Vec3) ⟨1, 3, 9⟩ :=
  (C4_visual_ignores_depth 0 ⟨1, 2, 3⟩ ⟨1, 3, 9⟩ 5 7 0 0).1
    (Or.inl (by norm_num [viewIndex, Int.tmod]))

/-- Claim C5: a query whose start equals its goal finds the
single-element path immediately — the first dequeued path is `[X]`, its
last node already equals the target, so the loop breaks before ever
calling the neighbor function; the result holds for every graph. -/
theorem C5_self_query_trivial (E : ℕ → Option (List ℕ)) (X fuel : ℕ)
    (h : 1 ≤ fuel) : findPath E X X fuel = SearchResult.found [X] := by
  obtain ⟨f, rfl⟩ : ∃ f, fuel = f + 1 := ⟨fuel - 1, by omega⟩
  simp [findPath, bfsLoop]

/-- Witness for `C5_self_query_trivial` on the everywhere-crashing
neighbor function: the query still succeeds, confirming no traversal is
performed. -/
theorem C5_self_query_trivial_witness :
    findPath (fun _ => none) 5 5 1 = SearchResult.found [5] :=
  C5_self_query_trivial (fun _ => none) 5 1 (by norm_num)

/-- Claim C7 is false on the code: interacting with the limitless slider
moves its offset from the default 0 to 5, because the fallback bound in
store.ts line 936 is `[0, 100]`, not a zero-width bound. -/
theorem C7_counterexample :
    (sliderStates "s").map (fun st => st.offsetValue) = some 0 ∧
      ((interactGroup sliderLevel sliderStates GameStatus.PLAYING "s" 5) "s").map
        (fun st => st.offsetValue) = some 5 := by
  constructor
  · norm_num [sliderStates, sliderState]
  · norm_num [interactGroup, sliderStates, sliderState, sliderLevel,
      sliderGroupNoLimit, List.find?]

/-- Claim C7 amended: a slider group with no configured `[min, max]`
limit falls back to the default bound `[0, 100]` rather than propagating
an error: the interaction clamps the incremented offset into `[0, 100]`,
so the offset can move away from its default. -/
theorem C7_missing_limit_defaults_wide (level : LevelData)
    (gs : String → Option GroupState) (groupId : String) (delta : ℚ)
    (group : GroupState) (h1 : gs groupId = some group)
    (h2 : group.type = GroupType.SLIDER)
    (h3 : (level.groups.find? (fun g => g.id = groupId)).bind (fun g => g.limit) = none) :
    (interactGroup level gs GameStatus.PLAYING groupId delta) groupId =
      some { group with offsetValue := max 0 (min 100 (group.offsetValue + delta)) } := by
  simp only [interactGroup, h1, h2, h3]
  norm_num

/-- Witness for `C7_missing_limit_defaults_wide` on the limitless slider
fixture. -/
theorem C7_missing_limit_defaults_wide_witness :
    (interactGroup sliderLevel sliderStates GameStatus.PLAYING "s" 5) "s" =
      some { sliderState with offsetValue := max 0 (min 100 (sliderState.offsetValue + 5)) } :=
  C7_missing_limit_defaults_wide sliderLevel sliderStates "s" 5 sliderState
    (by norm_num [sliderStates])
    rfl
    (by norm_num [sliderLevel, sliderGroupNoLimit, List.find?])

/-- Claim C8: bumping any group state's rotation by 4 (a full revolution)
leaves every node's resolved world position unchanged — the resolver only
uses the rotation through `cos`/`sin` of quarter turns, which have
period 4. -/
theorem C8_full_revolution (st : GroupState) (node : GameNode) :
    getWorldPosition (fun _ => some (bumpRot st)) node =
      getWorldPosition (fun _ => some st) node := by
  obtain ⟨i, ty, ip, piv, ax, rv, ov⟩ := st
  have hmod : (rv + 4) % 4 = rv % 4 := by omega
  have hc : cosQ (rv + 4) = cosQ rv := by unfold cosQ; rw [hmod]
  have hs : sinQ (rv + 4) = sinQ rv := by unfold sinQ; rw [hmod]
  cases ty <;> cases piv <;> cases ax <;>
    simp [getWorldPosition, bumpRot, rotY, hc, hs]

/-- Claim C2 is false on the code: the walkable nodes at `(0,0,0)` and
`(1,0,0)` are connected when unobstructed, and they remain connected after
a non-walkable node is inserted exactly at the midpoint `(0.5,0,0)` —
`getNeighbors` has no collision guard; non-walkable nodes are merely
skipped as candidates (store.ts line 981) and never block others. -/
theorem C2_counterexample :
    getNeighbors [nodeA, nodeB] wpAB 0 0 = some [1] ∧
      getNeighbors [nodeA, nodeB, solidMid] wpABM 0 0 = some [1] := by
  constructor <;>
    norm_num [getNeighbors, getNeighborsGo, wpAB, wpABM, worldPositions,
      getWorldPosition, nodeA, nodeB, solidMid, physAdjacent, distSq,
      visuallyConnected, viewIndex, Int.tmod]

/-- Claim C2 amended: there is no collision guard; a non-walkable node
never interferes with connections between other nodes — appending one to
the level leaves the neighbor classification of every node unchanged
(non-walkable candidates are skipped outright). -/
theorem C2_no_collision_guard (nodes : List GameNode) (wp : ℕ → Option Vec3)
    (gri : ℤ) (c : ℕ) (b : GameNode) (hb : b.isWalkable = false) :
    getNeighbors (nodes ++ [b]) wp gri c = getNeighbors nodes wp gri c := by
  unfold getNeighbors
  generalize wp c = cp
  generalize ([] : List ℕ) = acc
  induction nodes generalizing acc with
  | nil =>
    simp only [List.nil_append]
    unfold getNeighborsGo
    by_cases h1 : b.id = c
    · simp only [h1, if_true]
      rfl
    · simp only [h1, if_false, hb, if_true]
      rfl
  | cons n ns ih =>
    simp only [List.cons_append]
    unfold getNeighborsGo
    by_cases h1 : n.id = c
    · simp only [h1, if_true]
      exact ih acc
    · simp only [h1, if_false]
      by_cases h2 : n.isWalkable = false
      · simp only [h2, if_true]
        exact ih acc
      · simp only [h2, if_false]
        cases cp with
        | none => rfl
        | some cpos =>
          cases wp n.id with
          | none => rfl
          | some tpos =>
            simp only []
            by_cases h3 : physAdjacent cpos tpos = true
            · simp only [h3, if_true]
              exact ih (acc ++ [n.id])
            · simp only [h3, if_false]
              by_cases h4 : visuallyConnected gri cpos tpos = true
              · simp only [h4, if_true]
                exact ih (acc ++ [n.id])
              · simp only [h4, if_false]
                exact ih acc

/-- Witness for `C2_no_collision_guard`: appending the midpoint solid to
the two-node level leaves the classification of node 0 unchanged. -/
theorem C2_no_collision_guard_witness :
    getNeighbors ([nodeA, nodeB] ++ [solidMid]) wpABM 0 0 =
      getNeighbors [nodeA, nodeB] wpABM 0 0 :=
  C2_no_collision_guard [nodeA, nodeB] wpABM 0 0 solidMid rfl

/-- An empty queue ends the search with no path, whatever the fuel. -/
theorem bfsLoop_nil (E : ℕ → Option (List ℕ)) (t fuel : ℕ) (vis : List ℕ) :
    bfsLoop E t fuel [] vis = SearchResult.notFound := by
  cases fuel <;> rfl

/-- Exhausted fuel reports no path (termination artifact). -/
theorem bfsLoop_zero (E : ℕ → Option (List ℕ)) (t : ℕ) (c : List ℕ)
    (r : List (List ℕ)) (vis : List ℕ) :
    bfsLoop E t 0 (c :: r) vis = SearchResult.notFound := rfl

/-- One unfolding of the search loop on a nonempty queue. -/
theorem bfsLoop_succ (E : ℕ → Option (List ℕ)) (t fuel : ℕ) (c : List ℕ)
    (r : List (List ℕ)) (vis : List ℕ) :
    bfsLoop E t (fuel + 1) (c :: r) vis =
      if c.getLastD 0 = t then SearchResult.found c
      else
        match E (c.getLastD 0) with
        | none => SearchResult.crash
        | some ns =>
          bfsLoop E t fuel (enqueue c ns r vis).1 (enqueue c ns r vis).2 := rfl

/-- Enqueuing never drops paths already in the queue. -/
theorem enqueue_queue_mono (cp : List ℕ) :
    ∀ (ws : List ℕ) (q : List (List ℕ)) (vis : List ℕ) (r : List ℕ),
      r ∈ q → r ∈ (enqueue cp ws q vis).1 := by
  intro ws
  induction ws with
  | nil => intro q vis r hr; exact hr
  | cons w ws ih =>
    intro q vis r hr
    unfold enqueue
    by_cases hw : w ∈ vis
    · rw [if_pos hw]; exact ih q vis r hr
    · rw [if_neg hw]; exact ih (q ++ [cp ++ [w]]) (w :: vis) r (List.mem_append_left _ hr)

/-- Enqueuing appends, at the back, only extensions of the current path by
a yet-unvisited listed neighbor. -/
theorem enqueue_spec (cp : List ℕ) :
    ∀ (ws : List ℕ) (q : List (List ℕ)) (vis : List ℕ),
      ∃ new : List (List ℕ),
        (enqueue cp ws q vis).1 = q ++ new ∧
          ∀ r ∈ new, ∃ w, w ∈ ws ∧ w ∉ vis ∧ r = cp ++ [w] := by
  intro ws
  induction ws with
  | nil => intro q vis; exact ⟨[], by simp [enqueue]⟩
  | cons w ws ih =>
    intro q vis
    unfold enqueue
    by_cases hw : w ∈ vis
    · rw [if_pos hw]
      obtain ⟨new, h1, h2⟩ := ih q vis
      refine ⟨new, h1, fun r hr => ?_⟩
      obtain ⟨w', hw1, hw2, hw3⟩ := h2 r hr
      exact ⟨w', List.mem_cons_of_mem _ hw1, hw2, hw3⟩
    · rw [if_neg hw]
      obtain ⟨new, h1, h2⟩ := ih (q ++ [cp ++ [w]]) (w :: vis)
      refine ⟨[cp ++ [w]] ++ new, by rw [h1, List.append_assoc], fun r hr => ?_⟩
      rcases List.mem_append.mp hr with hr | hr
      · rcases List.mem_singleton.mp hr with rfl
        exact ⟨w, List.mem_cons_self _ _, hw, rfl⟩
      · obtain ⟨w', hw1, hw2, hw3⟩ := h2 r hr
        refine ⟨w', List.mem_cons_of_mem _ hw1, fun hmem => ?_, hw3⟩
        exact hw2 (List.mem_cons_of_mem _ hmem)

/-- The visited set after enqueuing is the old one plus the listed
neighbors. -/
theorem enqueue_vis_iff (cp : List ℕ) :
    ∀ (ws : List ℕ) (q : List (List ℕ)) (vis : List ℕ) (v : ℕ),
      v ∈ (enqueue cp ws q vis).2 ↔ v ∈ vis ∨ v ∈ ws := by
  intro ws
  induction ws with
  | nil => intro q vis v; simp [enqueue]
  | cons w ws ih =>
    intro q vis v
    unfold enqueue
    by_cases hw : w ∈ vis
    · rw [if_pos hw, ih]
      constructor
      · rintro (h | h)
        · exact Or.inl h
        · exact Or.inr (List.mem_cons_of_mem _ h)
      · rintro (h | h)
        · exact Or.inl h
        · rcases List.mem_cons.mp h with rfl | h
          · exact Or.inl hw
          · exact Or.inr h
    · rw [if_neg hw, ih]
      constructor
      · rintro (h | h)
        · rcases List.mem_cons.mp h with rfl | h
          · exact Or.inr (List.mem_cons_self _ _)
          · exact Or.inl h
        · exact Or.inr (List.mem_cons_of_mem _ h)
      · rintro (h | h)
        · exact Or.inl (List.mem_cons_of_mem _ h)
        · rcases List.mem_cons.mp h with rfl | h
          · exact Or.inl (List.mem_cons_self _ _)
          · exact Or.inr h

/-- Every listed unvisited neighbor ends up as the endpoint of some queued
path after enqueuing. -/
theorem enqueue_endpoint (cp : List ℕ) :
    ∀ (ws : List ℕ) (q : List (List ℕ)) (vis : List ℕ) (w : ℕ),
      w ∈ ws → w ∉ vis →
      ∃ r, r ∈ (enqueue cp ws q vis).1 ∧ r.getLast? = some w := by
  intro ws
  induction ws with
  | nil => intro q vis w h; exact absurd h (List.not_mem_nil _)
  | cons w0 ws ih =>
    intro q vis w hw hnv
    unfold enqueue
    by_cases h0 : w0 ∈ vis
    · rw [if_pos h0]
      rcases List.mem_cons.mp hw with rfl | hw'
      · exact absurd h0 hnv
      · exact ih q vis w hw' hnv
    · rw [if_neg h0]
      by_cases hww : w = w0
      · subst hww
        refine ⟨cp ++ [w], ?_, List.getLast?_concat _⟩
        exact enqueue_queue_mono cp ws _ _ _
          (List.mem_append_right _ (List.mem_singleton_self _))
      · rcases List.mem_cons.mp hw with rfl | hw'
        · exact absurd rfl hww
        · refine ih (q ++ [cp ++ [w0]]) (w0 :: vis) w hw' (fun hmem => ?_)
          rcases List.mem_cons.mp hmem with rfl | h
          · exact hww rfl
          · exact hnv h

/-- Membership in the walkable-id list, unfolded. -/
theorem mem_walkableIds (nodes : List GameNode) (j : ℕ) :
    j ∈ walkableIds nodes ↔ ∃ n, n ∈ nodes ∧ n.isWalkable = true ∧ n.id = j := by
  constructor
  · intro h
    obtain ⟨n, hn, rfl⟩ := List.mem_map.mp h
    have := List.mem_filter.mp hn
    exact ⟨n, this.1, this.2, rfl⟩
  · rintro ⟨n, hn, hw, rfl⟩
    exact List.mem_map.mpr ⟨n, List.mem_filter.mpr ⟨hn, hw⟩, rfl⟩

/-- Every id produced by the neighbor scan is either carried over from the
accumulator or the id of a walkable node of the scanned list. -/
theorem getNeighborsGo_mem (wp : ℕ → Option Vec3) (gri : ℤ) (c : ℕ)
    (cp? : Option Vec3) :
    ∀ (l : List GameNode) (acc out : List ℕ),
      getNeighborsGo wp gri c cp? l acc = some out →
      ∀ j ∈ out, j ∈ acc ∨ ∃ n, n ∈ l ∧ n.id = j ∧ n.isWalkable = true := by
  intro l
  induction l with
  | nil =>
    intro acc out h j hj
    unfold getNeighborsGo at h
    cases h
    exact Or.inl hj
  | cons n ns ih =>
    intro acc out h j hj
    have lift : (j ∈ acc ∨ ∃ m, m ∈ ns ∧ m.id = j ∧ m.isWalkable = true) →
        j ∈ acc ∨ ∃ m, m ∈ n :: ns ∧ m.id = j ∧ m.isWalkable = true := by
      rintro (h' | ⟨m, hm, h2, h3⟩)
      · exact Or.inl h'
      · exact Or.inr ⟨m, List.mem_cons_of_mem _ hm, h2, h3⟩
    have liftPush : n.isWalkable = true →
        (j ∈ acc ++ [n.id] ∨ ∃ m, m ∈ ns ∧ m.id = j ∧ m.isWalkable = true) →
        j ∈ acc ∨ ∃ m, m ∈ n :: ns ∧ m.id = j ∧ m.isWalkable = true := by
      intro hwalk h'
      rcases h' with h' | ⟨m, hm, h2, h3⟩
      · rcases List.mem_append.mp h' with h' | h'
        · exact Or.inl h'
        · rcases List.mem_singleton.mp h' with rfl
          exact Or.inr ⟨n, List.mem_cons_self _ _, rfl, hwalk⟩
      · exact Or.inr ⟨m, List.mem_cons_of_mem _ hm, h2, h3⟩
    unfold getNeighborsGo at h
    by_cases h1 : n.id = c
    · rw [if_pos h1] at h
      exact lift (ih acc out h j hj)
    · rw [if_neg h1] at h
      by_cases h2 : n.isWalkable = false
      · rw [if_pos h2] at h
        exact lift (ih acc out h j hj)
      · rw [if_neg h2] at h
        have hwalk : n.isWalkable = true := by
          revert h2; cases n.isWalkable <;> simp
        cases cp? with
        | none => cases h
        | some cpos =>
          cases hwp : wp n.id with
          | none => rw [hwp] at h; cases h
          | some tpos =>
            rw [hwp] at h
            dsimp only at h
            by_cases h3 : physAdjacent cpos tpos = true
            · rw [if_pos h3] at h
              exact liftPush hwalk (ih (acc ++ [n.id]) out h j hj)
            · rw [if_neg h3] at h
              by_cases h4 : visuallyConnected gri cpos tpos = true
              · rw [if_pos h4] at h
                exact liftPush hwalk (ih (acc ++ [n.id]) out h j hj)
              · rw [if_neg h4] at h
                exact lift (ih acc out h j hj)

/-- Every id a successful `getNeighbors` returns is a walkable node id. -/
theorem getNeighbors_mem (nodes : List GameNode) (wp : ℕ → Option Vec3)
    (gri : ℤ) (c : ℕ) (out : List ℕ)
    (h : getNeighbors nodes wp gri c = some out) :
    ∀ j ∈ out, j ∈ walkableIds nodes := by
  intro j hj
  rcases getNeighborsGo_mem wp gri c (wp c) nodes [] out h j hj with h' | ⟨n, h1, h2, h3⟩
  · exact absurd h' (List.not_mem_nil _)
  · exact (mem_walkableIds nodes j).mpr ⟨n, h1, h3, h2⟩

/-- A member of the tail of a one-step extension comes from the old tail
or is the new endpoint. -/
theorem tail_concat_mem (c : List ℕ) (w j : ℕ) (h : j ∈ (c ++ [w]).tail) :
    j ∈ c.tail ∨ j = w := by
  cases c with
  | nil => simp at h
  | cons a c =>
    simp only [List.cons_append, List.tail_cons] at h
    rcases List.mem_append.mp h with h | h
    · exact Or.inl h
    · exact Or.inr (List.mem_singleton.mp h)

/-- Search-loop invariant for claim C10: if every queued path has a
walkable tail, so has any found path. -/
theorem bfsLoop_tail_walkable (nodes : List GameNode) (wp : ℕ → Option Vec3)
    (gri : ℤ) (target : ℕ) :
    ∀ (fuel : ℕ) (queue : List (List ℕ)) (visited : List ℕ) (p : List ℕ),
      (∀ r ∈ queue, ∀ j ∈ r.tail, j ∈ walkableIds nodes) →
      bfsLoop (getNeighbors nodes wp gri) target fuel queue visited =
        SearchResult.found p →
      ∀ j ∈ p.tail, j ∈ walkableIds nodes := by
  intro fuel
  induction fuel with
  | zero =>
    intro queue visited p hq h
    cases queue with
    | nil => rw [bfsLoop_nil] at h; cases h
    | cons c r => rw [bfsLoop_zero] at h; cases h
  | succ f ih =>
    intro queue visited p hq h
    cases queue with
    | nil => rw [bfsLoop_nil] at h; cases h
    | cons c r =>
      rw [bfsLoop_succ] at h
      by_cases hc : c.getLastD 0 = target
      · rw [if_pos hc] at h
        cases h
        exact hq _ (List.mem_cons_self _ _)
      · rw [if_neg hc] at h
        cases hE : getNeighbors nodes wp gri (c.getLastD 0) with
        | none => rw [hE] at h; cases h
        | some ns =>
          rw [hE] at h
          refine ih _ _ p (fun r' hr' j hj => ?_) h
          obtain ⟨new, hsp, hnew⟩ := enqueue_spec c ns r visited
          rw [hsp] at hr'
          rcases List.mem_append.mp hr' with hr' | hr'
          · exact hq r' (List.mem_cons_of_mem _ hr') j hj
          · obtain ⟨w, hw1, hw2, rfl⟩ := hnew r' hr'
            rcases tail_concat_mem c w j hj with hj' | rfl
            · exact hq c (List.mem_cons_self _ _) j hj'
            · exact getNeighbors_mem nodes wp gri _ ns hE j hw1

/-- Claim C10: every node on a returned path other than the start is
walkable — the neighbor scan skips every non-walkable candidate, so
non-walkable nodes can only ever appear as the path's head. -/
theorem C10_path_tail_walkable (nodes : List GameNode) (wp : ℕ → Option Vec3)
    (gri : ℤ) (startId targetId fuel : ℕ) (p : List ℕ)
    (h : findPath (getNeighbors nodes wp gri) startId targetId fuel =
      SearchResult.found p) :
    ∀ j ∈ p.tail, j ∈ walkableIds nodes := by
  refine bfsLoop_tail_walkable nodes wp gri targetId fuel [[startId]] [startId] p
    (fun r hr j hj => ?_) h
  rcases List.mem_singleton.mp hr with rfl
  simp at hj

/-- Witness for `C10_path_tail_walkable`: the concrete search on the
two-node level finds `[0, 1]`, whose tail node 1 is walkable. -/
theorem C10_path_tail_walkable_witness : (1 : ℕ) ∈ walkableIds [nodeA, nodeB] :=
  C10_path_tail_walkable [nodeA, nodeB] wpAB 0 0 1 3 [0, 1]
    (by norm_num [findPath, bfsLoop, getNeighbors, getNeighborsGo, wpAB,
      worldPositions, getWorldPosition, nodeA, nodeB, physAdjacent, distSq,
      visuallyConnected, viewIndex, Int.tmod, enqueue])
    1 (by norm_num)

/-- A one-step extension's default last element is the new endpoint. -/
theorem getLastD_concat_eq (l : List ℕ) (w : ℕ) : (l ++ [w]).getLastD 0 = w := by
  simp [List.getLastD_eq_getLast?, List.getLast?_concat]

/-- The world-position table is defined exactly on the level's node ids. -/
theorem worldPositions_isSome (gs : String → Option GroupState) :
    ∀ (nodes : List GameNode) (i : ℕ),
      (worldPositions gs nodes i).isSome = true ↔ i ∈ nodes.map GameNode.id := by
  intro nodes
  induction nodes with
  | nil => intro i; simp [worldPositions]
  | cons n ns ih =>
    intro i
    simp only [worldPositions, List.map_cons, List.mem_cons]
    cases hw : worldPositions gs ns i with
    | some v =>
      have hmem : i ∈ List.map GameNode.id ns := (ih i).mp (by rw [hw]; rfl)
      simp [hmem]
    | none =>
      by_cases hi : i = n.id
      · simp [hi]
      · have hnm : i ∉ List.map GameNode.id ns := fun hm => by
          have := (ih i).mpr hm
          rw [hw] at this
          simp at this
        simp [hi, hnm]

/-- The neighbor scan succeeds whenever the current position resolved and
every scanned node's position is in the table. -/
theorem getNeighborsGo_isSome (wp : ℕ → Option Vec3) (gri : ℤ) (c : ℕ) (cpos : Vec3) :
    ∀ (l : List GameNode) (acc : List ℕ),
      (∀ n ∈ l, (wp n.id).isSome = true) →
      ∃ out, getNeighborsGo wp gri c (some cpos) l acc = some out := by
  intro l
  induction l with
  | nil => intro acc _; exact ⟨acc, rfl⟩
  | cons n ns ih =>
    intro acc hl
    have hns : ∀ m ∈ ns, (wp m.id).isSome = true :=
      fun m hm => hl m (List.mem_cons_of_mem _ hm)
    unfold getNeighborsGo
    by_cases h1 : n.id = c
    · rw [if_pos h1]; exact ih acc hns
    · rw [if_neg h1]
      by_cases h2 : n.isWalkable = false
      · rw [if_pos h2]; exact ih acc hns
      · rw [if_neg h2]
        obtain ⟨tpos, htp⟩ := Option.isSome_iff_exists.mp (hl n (List.mem_cons_self _ _))
        rw [htp]
        dsimp only
        by_cases h3 : physAdjacent cpos tpos = true
        · rw [if_pos h3]; exact ih (acc ++ [n.id]) hns
        · rw [if_neg h3]
          by_cases h4 : visuallyConnected gri cpos tpos = true
          · rw [if_pos h4]; exact ih (acc ++ [n.id]) hns
          · rw [if_neg h4]; exact ih acc hns

/-- When the requested target id is absent from the level, the search
exhausts without crashing as long as every queued endpoint is a level
node id: the current position always resolves, neighbors are always level
ids, and the target can never be dequeued. -/
theorem bfsLoop_missing_target (nodes : List GameNode)
    (gs : String → Option GroupState) (gri : ℤ) (target : ℕ)
    (htarget : target ∉ nodes.map GameNode.id) :
    ∀ (fuel : ℕ) (queue : List (List ℕ)) (visited : List ℕ),
      (∀ r ∈ queue, r.getLastD 0 ∈ nodes.map GameNode.id) →
      bfsLoop (getNeighbors nodes (worldPositions gs nodes) gri) target fuel
        queue visited = SearchResult.notFound := by
  intro fuel
  induction fuel with
  | zero =>
    intro queue visited hq
    cases queue with
    | nil => exact bfsLoop_nil _ _ _ _
    | cons c r => exact bfsLoop_zero _ _ _ _ _
  | succ f ih =>
    intro queue visited hq
    cases queue with
    | nil => exact bfsLoop_nil _ _ _ _
    | cons c r =>
      rw [bfsLoop_succ]
      have hcur : c.getLastD 0 ∈ nodes.map GameNode.id :=
        hq c (List.mem_cons_self _ _)
      have hne : ¬(c.getLastD 0 = target) := fun h => htarget (h ▸ hcur)
      rw [if_neg hne]
      obtain ⟨cpos, hcpos⟩ := Option.isSome_iff_exists.mp
        ((worldPositions_isSome gs nodes (c.getLastD 0)).mpr hcur)
      have hall : ∀ n ∈ nodes, ((worldPositions gs nodes) n.id).isSome = true :=
        fun n hn => (worldPositions_isSome gs nodes n.id).mpr
          (List.mem_map.mpr ⟨n, hn, rfl⟩)
      obtain ⟨ns, hns⟩ : ∃ out, getNeighbors nodes (worldPositions gs nodes) gri
          (c.getLastD 0) = some out := by
        unfold getNeighbors
        rw [hcpos]
        exact getNeighborsGo_isSome _ gri _ cpos nodes [] hall
      rw [hns]
      apply ih
      intro r' hr'
      obtain ⟨new, hsp, hnew⟩ := enqueue_spec c ns r visited
      rw [hsp] at hr'
      rcases List.mem_append.mp hr' with hr' | hr'
      · exact hq r' (List.mem_cons_of_mem _ hr')
      · obtain ⟨w, hw1, hw2, rfl⟩ := hnew r' hr'
        rw [getLastD_concat_eq]
        have := getNeighbors_mem nodes (worldPositions gs nodes) gri _ ns hns w hw1
        obtain ⟨m, hm1, hm2, hm3⟩ := (mem_walkableIds nodes w).mp this
        exact List.mem_map.mpr ⟨m, hm1, hm3⟩

/-- Claim C9 is false on the code: a move request whose start id (the
current `playerNodeId`, here 99) is absent from the level crashes with a
TypeError — `getNeighbors` dereferences the asserted
`worldPositions.get(currentId)!`, which is undefined, as soon as any other
walkable node is scanned — instead of returning a defensive "no path". -/
theorem C9_counterexample :
    movePlayer levelOnlyB (fun _ => none) 0 GameStatus.PLAYING 99 1 5 =
      MoveResult.crash := by
  norm_num [movePlayer, levelOnlyB, findPath, bfsLoop, getNeighbors,
    getNeighborsGo, worldPositions, getWorldPosition, nodeB, enqueue]

/-- Claim C9 amended: only the side of the claim about the target id holds:
a request whose target id is absent from the node set returns a plain
"no path" outcome and performs no action, for any fuel; a request whose
start id is absent instead crashes whenever the level holds a walkable
node other than the start, because the code asserts the map lookups
non-null rather than checking them. -/
theorem C9_missing_target_no_path (level : LevelData)
    (gs : String → Option GroupState) (gri : ℤ) (startId targetId fuel : ℕ)
    (hstart : startId ∈ level.nodes.map GameNode.id)
    (htarget : targetId ∉ level.nodes.map GameNode.id) :
    movePlayer level gs gri GameStatus.PLAYING startId targetId fuel =
      MoveResult.noPath := by
  have hne : startId ≠ targetId := fun h => htarget (h ▸ hstart)
  have hfp : findPath (getNeighbors level.nodes (worldPositions gs level.nodes) gri)
      startId targetId fuel = SearchResult.notFound := by
    unfold findPath
    apply bfsLoop_missing_target level.nodes gs gri targetId htarget fuel
      [[startId]] [startId]
    intro r hr
    rcases List.mem_singleton.mp hr with rfl
    simpa using hstart
  simp only [movePlayer,
    if_neg (show ¬(GameStatus.PLAYING ≠ GameStatus.PLAYING ∨ startId = targetId) by
      simp [hne])]
  rw [hfp]

/-- Witness for `C9_missing_target_no_path`: on the one-node level, moving
toward the absent id 42 is a clean "no path". -/
theorem C9_missing_target_no_path_witness :
    movePlayer levelOnlyB (fun _ => none) 0 GameStatus.PLAYING 1 42 5 =
      MoveResult.noPath :=
  C9_missing_target_no_path levelOnlyB (fun _ => none) 0 1 42 5
    (by norm_num [levelOnlyB, nodeB]) (by norm_num [levelOnlyB, nodeB])

/-- A nonempty list's optional last element is its default last element. -/
theorem getLast?_of_ne_nil (l : List ℕ) (h : l ≠ []) :
    l.getLast? = some (l.getLastD 0) := by
  simp only [List.getLastD_eq_getLast?]
  cases hl : l.getLast? with
  | none => exact absurd (List.getLast?_eq_none_iff.mp hl) h
  | some a => rfl

/-- The head of a list is a member. -/
theorem head?_mem_self (l : List ℕ) (a : ℕ) (h : l.head? = some a) : a ∈ l := by
  cases l with
  | nil => cases h
  | cons x xs => cases h; exact List.mem_cons_self _ _

/-- A queue head of lists is a member. -/
theorem head?_mem_self_q (l : List (List ℕ)) (a : List ℕ) (h : l.head? = some a) :
    a ∈ l := by
  cases l with
  | nil => cases h
  | cons x xs => cases h; exact List.mem_cons_self _ _

/-- The one-node walk is a path from a node to itself. -/
theorem isPath_singleton (E : ℕ → Option (List ℕ)) (s : ℕ) : isPath E s s [s] :=
  ⟨rfl, rfl, List.chain'_singleton s⟩

/-- Paths are nonempty. -/
theorem isPath_length_pos (E : ℕ → Option (List ℕ)) (s t : ℕ) (p : List ℕ)
    (h : isPath E s t p) : 1 ≤ p.length := by
  obtain ⟨h1, -, -⟩ := h
  cases p with
  | nil => cases h1
  | cons a q => simp

/-- Zero is the least edge count from a node to itself. -/
theorem shortestTo_self (E : ℕ → Option (List ℕ)) (s : ℕ) : shortestTo E s s 0 :=
  ⟨⟨[s], isPath_singleton E s, rfl⟩, fun p hp => isPath_length_pos E s s p hp⟩

/-- A node at least distance zero is the start itself. -/
theorem shortestTo_zero (E : ℕ → Option (List ℕ)) (s v : ℕ)
    (h : shortestTo E s v 0) : v = s := by
  obtain ⟨⟨p, hp, hlen⟩, -⟩ := h
  cases p with
  | nil => simp at hlen
  | cons a q =>
    cases q with
    | nil =>
      obtain ⟨h1, h2, -⟩ := hp
      simp only [List.head?_cons, Option.some.injEq] at h1
      simp only [List.getLast?_singleton, Option.some.injEq] at h2
      rw [← h2, h1]
    | cons b q2 => simp at hlen

/-- Least edge counts are unique. -/
theorem shortestTo_unique (E : ℕ → Option (List ℕ)) (s v a b : ℕ)
    (ha : shortestTo E s v a) (hb : shortestTo E s v b) : a = b := by
  obtain ⟨⟨p, hp, hpl⟩, hamin⟩ := ha
  obtain ⟨⟨q, hq, hql⟩, hbmin⟩ := hb
  have h1 := hamin q hq
  have h2 := hbmin p hp
  omega

/-- Extending a path along an edge yields a path. -/
theorem isPath_append_edge (E : ℕ → Option (List ℕ)) (s u w : ℕ) (p : List ℕ)
    (h : isPath E s u p) (he : edgeOf E u w) : isPath E s w (p ++ [w]) := by
  obtain ⟨h1, h2, h3⟩ := h
  refine ⟨?_, List.getLast?_concat _, ?_⟩
  · cases p with
    | nil => cases h1
    | cons a q => simpa using h1
  · rw [List.chain'_append]
    refine ⟨h3, List.chain'_singleton _, fun x hx y hy => ?_⟩
    rw [h2] at hx
    simp only [Option.mem_def, Option.some.injEq] at hx
    simp only [List.head?_cons, Option.mem_def, Option.some.injEq] at hy
    subst hx
    subst hy
    exact he

/-- A path of at least two nodes splits into a shorter path plus a final
edge. -/
theorem isPath_dropLast (E : ℕ → Option (List ℕ)) (s w : ℕ) (p : List ℕ) (n : ℕ)
    (h : isPath E s w p) (hlen : p.length = n + 2) :
    ∃ q u, p = q ++ [w] ∧ isPath E s u q ∧ edgeOf E u w ∧ q.length = n + 1 := by
  obtain ⟨h1, h2, h3⟩ := h
  have hne : p ≠ [] := by intro hp; rw [hp] at hlen; simp at hlen
  have hsplit : p.dropLast ++ [p.getLast hne] = p := List.dropLast_append_getLast hne
  have hw : p.getLast hne = w := by
    have := List.getLast?_eq_getLast p hne
    rw [h2] at this
    exact (Option.some.inj this).symm
  set q := p.dropLast with hq_def
  have hqlen : q.length = n + 1 := by
    rw [hq_def, List.length_dropLast, hlen]
    omega
  have hqne : q ≠ [] := by
    intro hq0
    rw [hq0] at hqlen
    simp at hqlen
  set u := q.getLast hqne with hu_def
  have hqu : q.getLast? = some u := List.getLast?_eq_getLast q hqne
  have hpeq : p = q ++ [w] := by rw [← hw]; exact hsplit.symm
  refine ⟨q, u, hpeq, ⟨?_, hqu, ?_⟩, ?_, hqlen⟩
  · rw [hpeq] at h1
    cases hqc : q with
    | nil => exact absurd hqc hqne
    | cons a t => rw [hqc] at h1; simpa using h1
  · rw [hpeq, List.chain'_append] at h3
    exact h3.1
  · rw [hpeq, List.chain'_append] at h3
    exact h3.2.2 u hqu w rfl

/-- A shortest path's predecessor of the endpoint is one step closer. -/
theorem shortestTo_pred (E : ℕ → Option (List ℕ)) (s w n : ℕ)
    (h : shortestTo E s w (n + 1)) : ∃ u, edgeOf E u w ∧ shortestTo E s u n := by
  obtain ⟨⟨p, hp, hlen⟩, hmin⟩ := h
  obtain ⟨q, u, hpeq, hq, he, hql⟩ := isPath_dropLast E s w p n hp (by omega)
  refine ⟨u, he, ⟨⟨q, hq, hql⟩, fun q2 hq2 => ?_⟩⟩
  by_contra hlt
  push_neg at hlt
  have hpath := isPath_append_edge E s u w q2 hq2 he
  have hge := hmin _ hpath
  rw [List.length_append, List.length_singleton] at hge
  omega

/-- Every node reached by some path has a least edge count, bounded by
that path. -/
theorem shortestTo_exists (E : ℕ → Option (List ℕ)) (s v : ℕ) (p : List ℕ)
    (h : isPath E s v p) : ∃ n, shortestTo E s v n ∧ n + 1 ≤ p.length := by
  classical
  set S : Set ℕ := {m : ℕ | ∃ q, isPath E s v q ∧ q.length = m + 1} with hS
  have hppos := isPath_length_pos E s v p h
  have hne : S.Nonempty := ⟨p.length - 1, p, h, by omega⟩
  have hmem := Nat.sInf_mem hne
  refine ⟨sInf S, ⟨hmem, fun q hq => ?_⟩, ?_⟩
  · have hqpos := isPath_length_pos E s v q hq
    have : q.length - 1 ∈ S := ⟨q, hq, by omega⟩
    have := Nat.sInf_le this
    omega
  · have : p.length - 1 ∈ S := ⟨p, h, by omega⟩
    have := Nat.sInf_le this
    omega

/-- One expansion of the search preserves the breadth-first invariant:
popping the front path and enqueuing its unvisited neighbors keeps queue
paths shortest, levels within a window of two, and everything strictly
closer than the new front visited and expanded. -/
theorem bfs_inv_step (E : ℕ → Option (List ℕ)) (s : ℕ) (cpath : List ℕ)
    (rest : List (List ℕ)) (visited : List ℕ) (ns : List ℕ)
    (inv : BfsInv E s (cpath :: rest) visited)
    (hE : E (cpath.getLastD 0) = some ns) :
    BfsInv E s (enqueue cpath ns rest visited).1 (enqueue cpath ns rest visited).2 := by
  obtain ⟨new, hq, hnew⟩ := enqueue_spec cpath ns rest visited
  have hcne : cpath ≠ [] := (inv.walks cpath (List.mem_cons_self _ _)).2.2
  have hhead : cpath.head? = some s := (inv.walks cpath (List.mem_cons_self _ _)).1
  have hchain : List.Chain' (edgeOf E) cpath :=
    (inv.walks cpath (List.mem_cons_self _ _)).2.1
  set curr := cpath.getLastD 0 with hcurr_def
  have hlast : cpath.getLast? = some curr := getLast?_of_ne_nil cpath hcne
  have hcpath : isPath E s curr cpath := ⟨hhead, hlast, hchain⟩
  set m := cpath.length with hm
  have hm1 : 1 ≤ m := List.length_pos.mpr hcne
  have hshort_c : shortestTo E s curr (m - 1) :=
    inv.short cpath (List.mem_cons_self _ _) curr hlast
  have hcurr_vis : curr ∈ visited := inv.ends cpath (List.mem_cons_self _ _) curr hlast
  have hedge : ∀ w ∈ ns, edgeOf E curr w := by
    intro w hw
    unfold edgeOf
    rw [hE]
    simpa using hw
  have hfrontier := inv.frontier cpath rfl
  have hexp_curr : bfsExpanded E (enqueue cpath ns rest visited).2 curr := by
    intro w hw
    unfold edgeOf at hw
    rw [hE] at hw
    simp only [Option.getD_some] at hw
    exact (enqueue_vis_iff cpath ns rest visited w).mpr (Or.inr hw)
  have hlevel_vis : ∀ v n, shortestTo E s v n → n + 1 = m → v ∈ visited := by
    intro v n hv hnm
    cases n with
    | zero => rw [shortestTo_zero E s v hv]; exact inv.startMem
    | succ k =>
      obtain ⟨u, hu_edge, hu_short⟩ := shortestTo_pred E s v k hv
      exact (hfrontier u k hu_short (by omega)).2 v hu_edge
  have hnew_short : ∀ w ∈ ns, w ∉ visited → shortestTo E s w m := by
    intro w hw hnv
    constructor
    · exact ⟨cpath ++ [w], isPath_append_edge E s curr w cpath hcpath (hedge w hw),
        by simp [hm]⟩
    · intro q hq2
      obtain ⟨k, hk, hkle⟩ := shortestTo_exists E s w q hq2
      rcases Nat.lt_trichotomy (k + 1) m with hlt | heq | hgt
      · exact absurd (hfrontier w k hk hlt).1 hnv
      · exact absurd (hlevel_vis w k hk heq) hnv
      · omega
  have hmemq : ∀ r ∈ (enqueue cpath ns rest visited).1,
      r ∈ rest ∨ ∃ w, w ∈ ns ∧ w ∉ visited ∧ r = cpath ++ [w] := by
    intro r hr
    rw [hq] at hr
    rcases List.mem_append.mp hr with hr | hr
    · exact Or.inl hr
    · exact Or.inr (hnew r hr)
  have hlen_new : ∀ r ∈ new, r.length = m + 1 := by
    intro r hr
    obtain ⟨w, -, -, rfl⟩ := hnew r hr
    simp [hm]
  have hwindow_old : ∀ r ∈ rest, r.length ≤ m + 1 := fun r hr =>
    inv.window cpath r rfl (List.mem_cons_of_mem _ hr)
  have hsorted_rest : List.Pairwise (fun r q => List.length r ≤ List.length q) rest :=
    (List.pairwise_cons.mp inv.sorted).2
  have hge_rest : ∀ r ∈ rest, m ≤ r.length :=
    (List.pairwise_cons.mp inv.sorted).1
  refine ⟨?_, ?_, ?_, ?_, ?_, ?_, ?_, ?_⟩
  · -- walks
    intro r hr
    rcases hmemq r hr with hr' | ⟨w, hw, -, rfl⟩
    · exact inv.walks r (List.mem_cons_of_mem _ hr')
    · have hp := isPath_append_edge E s curr w cpath hcpath (hedge w hw)
      exact ⟨hp.1, hp.2.2, by simp⟩
  · -- sorted
    rw [hq, List.pairwise_append]
    refine ⟨hsorted_rest, ?_, ?_⟩
    · exact List.pairwise_of_forall_mem_list
        (fun a ha b hb => by rw [hlen_new a ha, hlen_new b hb])
    · intro a ha b hb
      rw [hlen_new b hb]
      exact le_trans (hwindow_old a ha) (le_refl _)
  · -- window
    intro hd r hhd hr
    have hhd_mem : hd ∈ (enqueue cpath ns rest visited).1 := head?_mem_self_q _ _ hhd
    have hhd_ge : m ≤ hd.length := by
      rcases hmemq hd hhd_mem with hh | ⟨w, -, -, rfl⟩
      · exact hge_rest hd hh
      · simp [hm]
    rcases hmemq r hr with hr' | ⟨w, -, -, rfl⟩
    · have := hwindow_old r hr'
      omega
    · have : (cpath ++ [w]).length = m + 1 := by simp [hm]
      omega
  · -- short
    intro r hr e he
    rcases hmemq r hr with hr' | ⟨w, hw, hnv, rfl⟩
    · exact inv.short r (List.mem_cons_of_mem _ hr') e he
    · rw [List.getLast?_concat] at he
      cases he
      have := hnew_short e hw hnv
      simpa [hm] using this
  · -- ends
    intro r hr e he
    rcases hmemq r hr with hr' | ⟨w, hw, -, rfl⟩
    · exact (enqueue_vis_iff cpath ns rest visited e).mpr
        (Or.inl (inv.ends r (List.mem_cons_of_mem _ hr') e he))
    · rw [List.getLast?_concat] at he
      cases he
      exact (enqueue_vis_iff cpath ns rest visited e).mpr (Or.inr hw)
  · -- closure
    intro v hv
    by_cases hvv : v ∈ visited
    · rcases inv.closure v hvv with ⟨r, hr, hre⟩ | hexp
      · rcases List.mem_cons.mp hr with rfl | hr2
        · have hvc : v = curr := by
            rw [hlast] at hre
            exact (Option.some.inj hre).symm
          rw [hvc]
          exact Or.inr hexp_curr
        · exact Or.inl ⟨r, by rw [hq]; exact List.mem_append_left _ hr2, hre⟩
      · exact Or.inr (fun w hw =>
          (enqueue_vis_iff cpath ns rest visited w).mpr (Or.inl (hexp w hw)))
    · have hv_ns : v ∈ ns := by
        rcases (enqueue_vis_iff cpath ns rest visited v).mp hv with h' | h'
        · exact absurd h' hvv
        · exact h'
      obtain ⟨r, hr, hre⟩ := enqueue_endpoint cpath ns rest visited v hv_ns hvv
      exact Or.inl ⟨r, hr, hre⟩
  · -- frontier
    intro hd hhd v n hv hlt
    have hhd_mem : hd ∈ (enqueue cpath ns rest visited).1 := head?_mem_self_q _ _ hhd
    have hhd_le : hd.length ≤ m + 1 := by
      rcases hmemq hd hhd_mem with hh | ⟨w, -, -, rfl⟩
      · exact hwindow_old hd hh
      · simp [hm]
    rcases Nat.lt_or_ge (n + 1) m with hlt2 | hge
    · obtain ⟨h1, h2⟩ := hfrontier v n hv hlt2
      exact ⟨(enqueue_vis_iff cpath ns rest visited v).mpr (Or.inl h1),
        fun w hw => (enqueue_vis_iff cpath ns rest visited w).mpr (Or.inl (h2 w hw))⟩
    · have heq : n + 1 = m := by omega
      by_cases hvc : v = curr
      · rw [hvc]
        exact ⟨(enqueue_vis_iff cpath ns rest visited curr).mpr (Or.inl hcurr_vis),
          hexp_curr⟩
      · have hv_vis : v ∈ visited := hlevel_vis v n hv heq
        refine ⟨(enqueue_vis_iff cpath ns rest visited v).mpr (Or.inl hv_vis), ?_⟩
        rcases inv.closure v hv_vis with ⟨r, hr, hre⟩ | hexp
        · exfalso
          rcases List.mem_cons.mp hr with rfl | hr2
          · rw [hlast] at hre
            exact hvc (Option.some.inj hre).symm
          · have hrs := inv.short r (List.mem_cons_of_mem _ hr2) v hre
            have hlen_r : r.length - 1 = n := shortestTo_unique E s v _ _ hrs hv
            have hr_ne : r ≠ [] := (inv.walks r (List.mem_cons_of_mem _ hr2)).2.2
            have hr_pos : 1 ≤ r.length := List.length_pos.mpr hr_ne
            have hr_len : r.length = m := by omega
            cases rest with
            | nil => exact List.not_mem_nil r hr2
            | cons a rest2 =>
              have hhd_a : hd = a := by
                rw [hq] at hhd
                simp only [List.cons_append, List.head?_cons,
                  Option.some.injEq] at hhd
                exact hhd.symm
              rcases List.mem_cons.mp hr2 with rfl | hr3
              · rw [hhd_a] at hlt
                omega
              · have hle := (List.pairwise_cons.mp hsorted_rest).1 r hr3
                rw [hhd_a] at hlt
                omega
        · exact fun w hw =>
            (enqueue_vis_iff cpath ns rest visited w).mpr (Or.inl (hexp w hw))
  · -- startMem
    exact (enqueue_vis_iff cpath ns rest visited s).mpr (Or.inl inv.startMem)

/-- Under the breadth-first invariant, any found path is a shortest path
from the start to the target. -/
theorem bfsLoop_found_shortest (E : ℕ → Option (List ℕ)) (s target : ℕ) :
    ∀ (fuel : ℕ) (queue : List (List ℕ)) (visited : List ℕ) (p : List ℕ),
      BfsInv E s queue visited →
      bfsLoop E target fuel queue visited = SearchResult.found p →
      isPath E s target p ∧ ∀ q, isPath E s target q → p.length ≤ q.length := by
  intro fuel
  induction fuel with
  | zero =>
    intro queue visited p inv h
    cases queue with
    | nil => rw [bfsLoop_nil] at h; cases h
    | cons c r => rw [bfsLoop_zero] at h; cases h
  | succ f ih =>
    intro queue visited p inv h
    cases queue with
    | nil => rw [bfsLoop_nil] at h; cases h
    | cons c r =>
      rw [bfsLoop_succ] at h
      by_cases hc : c.getLastD 0 = target
      · rw [if_pos hc] at h
        cases h
        have hcne : p ≠ [] := (inv.walks p (List.mem_cons_self _ _)).2.2
        have hlast : p.getLast? = some (p.getLastD 0) := getLast?_of_ne_nil p hcne
        have hshort := inv.short p (List.mem_cons_self _ _) _ hlast
        rw [hc] at hlast hshort
        refine ⟨⟨(inv.walks p (List.mem_cons_self _ _)).1, hlast,
          (inv.walks p (List.mem_cons_self _ _)).2.1⟩, fun q hq => ?_⟩
        have hmin := hshort.2 q hq
        have hpos : 1 ≤ p.length := List.length_pos.mpr hcne
        omega
      · rw [if_neg hc] at h
        cases hE : E (c.getLastD 0) with
        | none => rw [hE] at h; cases h
        | some ns =>
          rw [hE] at h
          exact ih _ _ p (bfs_inv_step E s c r visited ns inv hE) h

/-- The initial search state — queue `[[s]]`, visited `[s]` — satisfies the
breadth-first invariant. -/
theorem bfs_inv_init (E : ℕ → Option (List ℕ)) (s : ℕ) : BfsInv E s [[s]] [s] := by
  refine ⟨?_, ?_, ?_, ?_, ?_, ?_, ?_, ?_⟩
  · intro r hr
    rcases List.mem_singleton.mp hr with rfl
    exact ⟨rfl, List.chain'_singleton _, by simp⟩
  · exact List.pairwise_singleton _ _
  · intro hd r hhd hr
    rcases List.mem_singleton.mp hr with rfl
    cases hhd
    simp
  · intro r hr e he
    rcases List.mem_singleton.mp hr with rfl
    simp only [List.getLast?_singleton, Option.some.injEq] at he
    rw [← he]
    exact shortestTo_self E s
  · intro r hr e he
    rcases List.mem_singleton.mp hr with rfl
    simp only [List.getLast?_singleton, Option.some.injEq] at he
    rw [← he]
    exact List.mem_singleton_self s
  · intro v hv
    rcases List.mem_singleton.mp hv with rfl
    exact Or.inl ⟨[v], List.mem_singleton_self _, rfl⟩
  · intro hd hhd v n hv hlt
    cases hhd
    simp at hlt
  · exact List.mem_singleton_self s

/-- Claim C6: whenever the search returns a path, that path is a genuine
path from start to target along the neighbor relation of the current view
and group states, and no path between them has fewer nodes (each edge
costing one hop). -/
theorem C6_bfs_shortest (nodes : List GameNode) (wp : ℕ → Option Vec3) (gri : ℤ)
    (startId targetId fuel : ℕ) (p : List ℕ)
    (h : findPath (getNeighbors nodes wp gri) startId targetId fuel =
      SearchResult.found p) :
    isPath (getNeighbors nodes wp gri) startId targetId p ∧
      ∀ q, isPath (getNeighbors nodes wp gri) startId targetId q →
        p.length ≤ q.length :=
  bfsLoop_found_shortest (getNeighbors nodes wp gri) startId targetId fuel
    [[startId]] [startId] p (bfs_inv_init _ startId) h

/-- Witness for `C6_bfs_shortest`: the concrete search on the two-node
level returns `[0, 1]`, a path whose length is minimal (compared against
itself, the instantiation of the universally quantified bound). -/
theorem C6_bfs_shortest_witness :
    isPath (getNeighbors [nodeA, nodeB] wpAB 0) 0 1 [0, 1] ∧
      ([0, 1] : List ℕ).length ≤ ([0, 1] : List ℕ).length := by
  have h := C6_bfs_shortest [nodeA, nodeB] wpAB 0 0 1 3 [0, 1]
    (by norm_num [findPath, bfsLoop, getNeighbors, getNeighborsGo, wpAB,
      worldPositions, getWorldPosition, nodeA, nodeB, physAdjacent, distSq,
      visuallyConnected, viewIndex, Int.tmod, enqueue])
  exact ⟨h.1, h.2 [0, 1] h.1⟩
